import Mathlib

/-!
Verification of `douban.py` (Douban movie-rating exporter).

Shallow embedding conventions:
* Python strings are modelled as `String` or `List Char` (where character-level
  reasoning is needed, e.g. `str.partition`, `str.strip`, XPath `normalize-space`).
* Python `dict` is modelled as an association list `List (Int × α)` with
  insertion-order semantics: overwriting an existing key keeps its position,
  a new key is appended at the end (`dictInsert`).
* External library calls (SHA-512 from `hashlib`, `urljoin` from `urllib`,
  the HTTP session from `requests`) are abstracted as function parameters;
  everything the repository itself computes is translated directly.
* Exceptions are modelled with `Except String` / `Option`.
-/

/-- XPath whitespace (XML whitespace set used by `normalize-space`):
space, tab, newline, carriage return only. -/
def isWs (c : Char) : Bool :=
  c = ' ' || c = '\t' || c = '\n' || c = '\r'

/-- Python `str` whitespace, as used by `str.strip()`: the ASCII whitespace
characters including vertical tab and form feed, the C1 controls Python
treats as whitespace, and the Unicode space separators. This is a strictly
larger set than `isWs`. -/
def pyWs (c : Char) : Bool :=
  c = ' ' || c = '\t' || c = '\n' || c = '\r' || c = '\x0b' || c = '\x0c' ||
  c = '\x1c' || c = '\x1d' || c = '\x1e' || c = '\x1f' || c = '\x85' || c = '\xa0' ||
  c = ' ' || (' ' ≤ c && c ≤ ' ') || c = ' ' || c = ' ' ||
  c = ' ' || c = ' ' || c = '　'

/-- Python `str.strip()` on a character list: drop leading and trailing
Python whitespace. -/
def pyStrip (s : List Char) : List Char :=
  ((s.dropWhile pyWs).reverse.dropWhile pyWs).reverse

/-- Python `str.strip()` on a `String`. -/
def pyStripS (s : String) : String :=
  (pyStrip s.toList).asString

/-- Prefix test on character lists: `listStartsWith pre s` is Python
`s.startswith(pre)`. -/
def listStartsWith : List Char → List Char → Bool
  | [], _ => true
  | _ :: _, [] => false
  | a :: as, b :: bs => a == b && listStartsWith as bs

/-- Locate the first occurrence of `sep` in `s`; return the parts before and
after it. Used to model Python `str.partition` for a nonempty separator. -/
def findSep (sep : List Char) : List Char → Option (List Char × List Char)
  | [] => none
  | c :: cs =>
    if listStartsWith sep (c :: cs) then some ([], (c :: cs).drop sep.length)
    else (findSep sep cs).map (fun p => (c :: p.1, p.2))

/-- Python `s.partition(sep)` for a nonempty separator: split at the first
occurrence of `sep`; when `sep` does not occur, return `(s, [], [])`. -/
def pyPartition (s sep : List Char) : List Char × List Char × List Char :=
  match findSep sep s with
  | some (b, a) => (b, sep, a)
  | none => (s, [], [])

/-- Accumulator pass splitting a character list into maximal runs of
non-XPath-whitespace characters (`cur` holds the current run reversed). -/
def wordsAux : List Char → List Char → List (List Char)
  | [], cur => if cur = [] then [] else [cur.reverse]
  | c :: cs, cur =>
    if isWs c then
      if cur = [] then wordsAux cs [] else cur.reverse :: wordsAux cs []
    else wordsAux cs (c :: cur)

/-- The XPath-whitespace-separated words of a character list. -/
def wordsOf (s : List Char) : List (List Char) :=
  wordsAux s []

/-- Join words with single spaces. -/
def joinWords : List (List Char) → List Char
  | [] => []
  | [w] => w
  | w :: ws => w ++ ' ' :: joinWords ws

/-- XPath 1.0 `normalize-space`: strip leading and trailing XML whitespace
and collapse internal runs of XML whitespace to single spaces. -/
def normSpace (s : List Char) : List Char :=
  joinWords (wordsOf s)

/-- One rated item, as assembled by `parse_page` (`title_zh` and `comment`
are `none` exactly when the corresponding key is deleted from the dict). -/
structure Record where
  id : Int
  title : String
  title_zh : Option String := none
  year : Int
  rating : Nat
  rated_at : String
  comment : Option String := none
deriving Repr, DecidableEq

/-- The descending comparison used by `data.sort(key=lambda r: r["rated_at"],
reverse=True)`: `a` may come before `b` iff `b.rated_at ≤ a.rated_at`
(string-lexicographic). -/
def ratedGE (a b : Record) : Prop :=
  b.rated_at ≤ a.rated_at

instance : DecidableRel ratedGE :=
  fun a b => inferInstanceAs (Decidable (b.rated_at ≤ a.rated_at))

instance : IsTotal Record ratedGE :=
  ⟨fun a b => (le_total b.rated_at a.rated_at).elim Or.inl Or.inr⟩

instance : IsTrans Record ratedGE :=
  ⟨fun _ _ _ hab hbc => le_trans hbc hab⟩

/-- Python `dict` insertion: overwriting an existing key keeps its position,
a new key is appended at the end. -/
def dictInsert (m : List (Int × α)) (k : Int) (v : α) : List (Int × α) :=
  if m.any (fun kv => kv.1 == k) then
    m.map (fun kv => if kv.1 == k then (k, v) else kv)
  else m ++ [(k, v)]

/-- The keys of an association list, in order. -/
def dictKeys (m : List (Int × α)) : List Int :=
  m.map Prod.fst

/-- Python `dict(pairs)`: insert the pairs left to right into an empty dict. -/
def dictOf (l : List (Int × α)) : List (Int × α) :=
  l.foldl (fun m kv => dictInsert m kv.1 kv.2) []

/-- The hex target `"0" * difficulty`, as a character list. -/
def powTarget (difficulty : Nat) : List Char :=
  List.replicate difficulty '0'

/-- Whether nonce `n` solves the puzzle: the hex digest of
`cha + str(n)` starts with `difficulty` zeros. The digest function `hex`
abstracts `hashlib.sha512(...).hexdigest()` (an external library call);
its output is the digest as a character sequence. -/
def powOk (hex : String → List Char) (cha : String) (difficulty n : Nat) : Prop :=
  listStartsWith (powTarget difficulty) (hex (cha ++ toString n)) = true

/-- The `while True` search loop of `_solve_pow`, made total with explicit
fuel: starting from `nonce`, try `nonce+1`, `nonce+2`, ... and return the
first candidate whose digest starts with `target`. -/
def solvePowAux (hex : String → List Char) (cha : String) (target : List Char) :
    Nat → Nat → Option Nat
  | 0, _ => none
  | fuel + 1, nonce =>
    if listStartsWith target (hex (cha ++ toString (nonce + 1))) then some (nonce + 1)
    else solvePowAux hex cha target fuel (nonce + 1)

/-- `_solve_pow(cha, difficulty)`: smallest nonce `≥ 1` whose digest has
`difficulty` leading zero hex digits (fuel-bounded rendering of the
unbounded loop; `none` means the bound was exhausted). -/
def solve_pow (hex : String → List Char) (cha : String) (difficulty fuel : Nat) : Option Nat :=
  solvePowAux hex cha (powTarget difficulty) fuel 0

/-- An HTTP response, with the fields `_maybe_handle_pow` inspects.
`hasChaMarker` and `hasTokMarker` are the substring checks
`'id="cha"' in text` and `'id="tok"' in text` on the raw body; the node
lists are the XPath extraction results on the parsed DOM (raw text and
parsed DOM can disagree, e.g. markers occurring outside real input
elements), `difficultyMatch` is the regex match for `difficulty = N`. -/
structure Response where
  url : String
  content : String
  hasChaMarker : Bool
  hasTokMarker : Bool
  tokNodes : List String
  chaNodes : List String
  redNodes : List String
  actionNodes : List String
  difficultyMatch : Option Nat
deriving Repr, DecidableEq

/-- Network side effects performed by the checkpoint interceptor, in order. -/
inductive NetEvent where
  | solve (cha : String) (difficulty : Nat)
  | post (url : String) (payload : List (String × String))
  | get (url : String)
deriving Repr, DecidableEq

/-- The shared HTTP session, abstracted: whether a POST succeeds, whether a
GET succeeds, and which response a GET yields. -/
structure Network where
  postOk : String → List (String × String) → Bool
  getOk : String → Bool
  getResp : String → Response

/-- The form action resolved against the page URL:
`urljoin(res.url, action_nodes[0] if action_nodes else "/c")`. -/
def powChallengeUrl (urljoin : String → String → String) (res : Response) : String :=
  urljoin res.url (res.actionNodes.headD "/c")

/-- The difficulty: the regex match if present, else the default 4. -/
def powDifficulty (res : Response) : Nat :=
  res.difficultyMatch.getD 4

/-- The POST payload `{"tok": tok, "cha": cha, "sol": str(sol), "red": red}`. -/
def powPayload (solver : String → Nat → Nat) (res : Response) : List (String × String) :=
  [("tok", res.tokNodes.headD ""), ("cha", res.chaNodes.headD ""),
   ("sol", toString (solver (res.chaNodes.headD "") (powDifficulty res))),
   ("red", res.redNodes.headD "")]

/-- `_maybe_handle_pow(res, original_url)`: returns the response handed back
to the caller (`none` when an HTTP error is raised by `raise_for_status`)
together with the list of network/solver actions performed. `solver`
abstracts `_solve_pow` and `urljoin` abstracts `urllib.parse.urljoin`. -/
def maybe_handle_pow (solver : String → Nat → Nat) (urljoin : String → String → String)
    (net : Network) (res : Response) (originalUrl : String) :
    Option Response × List NetEvent :=
  if ¬ (res.hasChaMarker ∧ res.hasTokMarker) then (some res, [])
  else if res.tokNodes = [] ∨ res.chaNodes = [] ∨ res.redNodes = [] then (some res, [])
  else
    let cha := res.chaNodes.headD ""
    let challengeUrl := powChallengeUrl urljoin res
    let payload := powPayload solver res
    let evs := [NetEvent.solve cha (powDifficulty res), NetEvent.post challengeUrl payload]
    if ¬ net.postOk challengeUrl payload then (none, evs)
    else
      let evs2 := evs ++ [NetEvent.get originalUrl]
      if ¬ net.getOk originalUrl then (none, evs2)
      else (some (net.getResp originalUrl), evs2)

/-- The environment `scrape` runs in: what each listing page parses to, and
the total page count read from page 1's paginator attribute. -/
structure ScrapeEnv where
  pageItems : Nat → List (Int × Record)
  totalPages : Nat

/-- The clamp in `scrape`: `if max_pages is not None and
0 < max_pages < last_page: last_page = max_pages`. -/
def clampPages (totalPages : Nat) (maxPages : Option Int) : Int :=
  match maxPages with
  | some m => if 0 < m ∧ m < (totalPages : Int) then m else (totalPages : Int)
  | none => (totalPages : Int)

/-- The 1-based page numbers `scrape` fetches: page 1, then pages
`2 .. last_page` (from `range(1, last_page)` with `start = p * 15`). -/
def scrape_pages (env : ScrapeEnv) (maxPages : Option Int) : List Nat :=
  1 :: List.range' 2 (clampPages env.totalPages maxPages - 1).toNat

/-- The result mapping `scrape` builds: `dict(parse_page(page1))` updated in
turn with each further fetched page's items. -/
def scrape_results (env : ScrapeEnv) (maxPages : Option Int) : List (Int × Record) :=
  (scrape_pages env maxPages).foldl
    (fun m p => (env.pageItems p).foldl (fun m kv => dictInsert m kv.1 kv.2) m) []

/-- The fixed rating lexicon `rating_map`. -/
def rating_map (s : String) : Option Nat :=
  match s with
  | "rating1-t" => some 1
  | "rating2-t" => some 2
  | "rating3-t" => some 3
  | "rating4-t" => some 4
  | "rating5-t" => some 5
  | "" => some 0
  | _ => none

/-- The rating step of `parse_page`: `rating_map[rating.strip()]`, with the
`KeyError` turned into `ValueError(f"Unknown rating \x27{rating}\x27 in: {title}")`
(note the message interpolates the unstripped token). -/
def parse_page_rating (raw title : String) : Except String Nat :=
  match rating_map (pyStripS raw) with
  | some v => Except.ok v
  | none => Except.error ("Unknown rating \x27" ++ raw ++ "\x27 in: " ++ title)

/-- The literal separator `" / "`. -/
def sepChars : List Char :=
  [' ', '/', ' ']

/-- The `ValueError(f"No title found for id {_id}.")` message. -/
def titleErrMsg (id : Int) : String :=
  "No title found for id " ++ toString id ++ "."

/-- The title step of `parse_page`: XPath `normalize-space` of the title
element, `partition(" / ")`, strip both parts, and resolve to
`(title, title_zh)` with `title_zh = none` for a single-titled item. -/
def parse_page_title (raw : List Char) (id : Int) :
    Except String (List Char × Option (List Char)) :=
  let em := normSpace raw
  let p := pyPartition em sepChars
  let zh := pyStrip p.1
  let t := pyStrip p.2.2
  if t = [] ∨ t = zh then
    if zh = [] then Except.error (titleErrMsg id) else Except.ok (zh, none)
  else Except.ok (t, some zh)

/-- The stripped part of the title text before the first `" / "`. -/
def titleFst (raw : List Char) : List Char :=
  pyStrip (pyPartition (normSpace raw) sepChars).1

/-- The stripped part of the title text after the first `" / "`. -/
def titleSnd (raw : List Char) : List Char :=
  pyStrip (pyPartition (normSpace raw) sepChars).2.2

/-- The comment step of `parse_page`: `...strip() or None`, then the key is
deleted when the value is `None`. -/
def parse_page_comment (raw : List Char) : Option (List Char) :=
  let c := pyStrip raw
  if c = [] then none else some c

/-- A JSON value, for modelling `json.load`. -/
inductive Json where
  | null : Json
  | bool (b : Bool) : Json
  | num (n : Int) : Json
  | str (s : String) : Json
  | arr (xs : List Json) : Json
  | obj (fields : List (String × Json)) : Json

/-- `read_json(json_path)`: `none` models `FileNotFoundError` (no prior
file), which yields `[]`; a parsed JSON value that is a list is returned;
anything else raises the format `ValueError`. -/
def read_json (path : String) (file : Option Json) : Except String (List Json) :=
  match file with
  | none => Except.ok []
  | some (Json.arr xs) => Except.ok xs
  | some _ => Except.error ("Invalid JSON format in " ++ path ++ ": expected a list.")

/-- The dict `old = {d["id"]: d for d in read_json(json_path)}` built in
`main`. -/
def main_old_dict (prev : List Record) : List (Int × Record) :=
  prev.foldl (fun m d => dictInsert m d.id d) []

/-- The list `old = [old[k] for k in (old.keys() - data.keys())]` built in
`main`: the previous records whose id the fresh scrape did not re-observe.
The iteration order of the Python set difference is unspecified; the dict's
insertion order is used here (the final sort makes the choice immaterial up
to ties, which the spec leaves unspecified). -/
def main_old_only (data : List (Int × Record)) (prev : List Record) : List Record :=
  ((main_old_dict prev).filter (fun kv => ¬ kv.1 ∈ dictKeys data)).map Prod.snd

/-- The merge step of `main` (lines 307-316): keep all fresh records, append
the previous records that fell out of the scrape, and sort by `rated_at`
descending - but only when at least one such previous record exists
(`if old:`). `List.insertionSort` is a stable sort, hence produces the same
list as Python's stable `list.sort` with `reverse=True`. -/
def main_merge (data : List (Int × Record)) (prev : List Record) : List Record :=
  let old := main_old_only data prev
  let vals := data.map Prod.snd
  if old.isEmpty then vals
  else List.insertionSort ratedGE (vals ++ old)

theorem listStartsWith_nil (s : List Char) : listStartsWith [] s = true := rfl

theorem solvePowAux_sound (hex : String → List Char) (cha : String) (target : List Char) :
    ∀ (fuel start n : Nat), solvePowAux hex cha target fuel start = some n →
      start < n ∧ listStartsWith target (hex (cha ++ toString n)) = true ∧
      ∀ m, start < m → m < n → listStartsWith target (hex (cha ++ toString m)) = false := by
  intro fuel
  induction fuel with
  | zero => intro start n h; simp [solvePowAux] at h
  | succ k ih =>
    intro start n h
    by_cases hc : listStartsWith target (hex (cha ++ toString (start + 1))) = true
    · rw [solvePowAux, if_pos hc] at h
      cases h
      exact ⟨Nat.lt_succ_self _, hc, fun m h1 h2 => absurd h1 (by omega)⟩
    · rw [solvePowAux, if_neg hc] at h
      obtain ⟨h1, h2, h3⟩ := ih (start + 1) n h
      refine ⟨by omega, h2, fun m hm1 hm2 => ?_⟩
      rcases Nat.lt_or_ge (start + 1) m with hm | hm
      · exact h3 m hm hm2
      · have : m = start + 1 := by omega
        subst this
        exact Bool.eq_false_iff.mpr hc

/-- C3: `_solve_pow` returns the smallest nonce `≥ 1` whose hex digest has
`difficulty` leading zero characters (whenever the fuel-bounded search
returns at all); with difficulty 0 any positive fuel returns nonce 1; and
the answer for a given `(cha, difficulty)` is independent of the fuel, so
the same inputs always yield the same nonce. -/
theorem solve_pow_spec (hex : String → List Char) (cha : String) :
    (∀ difficulty fuel n, solve_pow hex cha difficulty fuel = some n →
      1 ≤ n ∧ powOk hex cha difficulty n ∧
        ∀ m, 1 ≤ m → m < n → ¬ powOk hex cha difficulty m) ∧
    (∀ fuel, 1 ≤ fuel → solve_pow hex cha 0 fuel = some 1) ∧
    (∀ difficulty f₁ f₂ n₁ n₂, solve_pow hex cha difficulty f₁ = some n₁ →
      solve_pow hex cha difficulty f₂ = some n₂ → n₁ = n₂) := by
  have base : ∀ difficulty fuel n, solve_pow hex cha difficulty fuel = some n →
      1 ≤ n ∧ powOk hex cha difficulty n ∧
        ∀ m, 1 ≤ m → m < n → ¬ powOk hex cha difficulty m := by
    intro difficulty fuel n h
    obtain ⟨h1, h2, h3⟩ := solvePowAux_sound hex cha (powTarget difficulty) fuel 0 n h
    refine ⟨h1, h2, fun m hm1 hm2 hok => ?_⟩
    have := h3 m hm1 hm2
    rw [powOk] at hok
    simp [this] at hok
  refine ⟨base, ?_, ?_⟩
  · intro fuel hfuel
    cases fuel with
    | zero => omega
    | succ k =>
      rw [solve_pow, solvePowAux, if_pos (by simp [powTarget, listStartsWith_nil])]
  · intro difficulty f₁ f₂ n₁ n₂ h₁ h₂
    obtain ⟨ha1, ha2, ha3⟩ := base difficulty f₁ n₁ h₁
    obtain ⟨hb1, hb2, hb3⟩ := base difficulty f₂ n₂ h₂
    rcases lt_trichotomy n₁ n₂ with h | h | h
    · exact absurd ha2 (hb3 n₁ ha1 h)
    · exact h
    · exact absurd hb2 (ha3 n₂ hb1 h)

theorem solve_pow_spec_witness : solve_pow (fun _ => []) "c" 0 1 = some 1 :=
  (solve_pow_spec (fun _ => []) "c").2.1 1 (by omega)

/-- C7: the rating class token (after Python `strip`) is mapped exactly
through the fixed lexicon: `"rating3-t"` yields 3, `""` yields 0, the six
lexicon entries map as listed, and parsing produces the fatal error message
interpolating the title if and only if the stripped token is outside the
lexicon. -/
theorem rating_lexicon_spec :
    (∀ t, parse_page_rating "rating3-t" t = Except.ok 3) ∧
    (∀ t, parse_page_rating "" t = Except.ok 0) ∧
    (rating_map "rating1-t" = some 1 ∧ rating_map "rating2-t" = some 2 ∧
      rating_map "rating3-t" = some 3 ∧ rating_map "rating4-t" = some 4 ∧
      rating_map "rating5-t" = some 5 ∧ rating_map "" = some 0) ∧
    (∀ tok t, parse_page_rating tok t =
        Except.error ("Unknown rating \x27" ++ tok ++ "\x27 in: " ++ t) ↔
      rating_map (pyStripS tok) = none) := by
  refine ⟨fun t => rfl, fun t => rfl, by decide, fun tok t => ?_⟩
  cases h : rating_map (pyStripS tok) with
  | none => simp [parse_page_rating, h]
  | some v => simp [parse_page_rating, h]

theorem rating_lexicon_spec_witness :
    parse_page_rating "xx" "T" = Except.error "Unknown rating \x27xx\x27 in: T" :=
  (rating_lexicon_spec.2.2.2 "xx" "T").mpr rfl

/-- C10: reading persisted records yields the empty list when no file
exists, yields the stored list when the stored JSON value is a list, and
fails with the format error exactly when the stored value exists but is not
a list. -/
theorem read_json_spec :
    (∀ p, read_json p none = Except.ok []) ∧
    (∀ p xs, read_json p (some (Json.arr xs)) = Except.ok xs) ∧
    (∀ p j, (∃ e, read_json p (some j) = Except.error e) ↔ ∀ xs, j ≠ Json.arr xs) := by
  refine ⟨fun p => rfl, fun p xs => rfl, fun p j => ?_⟩
  cases j with
  | arr xs =>
    simp only [read_json]
    constructor
    · rintro ⟨e, he⟩; cases he
    · intro h; exact absurd rfl (h xs)
  | null => simp [read_json]
  | bool b => simp [read_json]
  | num n => simp [read_json]
  | str s => simp [read_json]
  | obj fields => simp [read_json]

theorem read_json_spec_witness :
    (∃ e, read_json "out.json" (some Json.null) = Except.error e) :=
  (read_json_spec.2.2 "out.json" Json.null).mpr (fun _ h => Json.noConfusion h)

/-- A response that is a real content page: the `cha` marker is absent. -/
def respPlain : Response :=
  { url := "https://movie.douban.com/people/u/collect", content := "real",
    hasChaMarker := false, hasTokMarker := true, tokNodes := [], chaNodes := [],
    redNodes := [], actionNodes := [], difficultyMatch := none }

/-- A response whose raw body contains both checkpoint marker substrings but
whose parsed DOM carries none of the extraction fields (e.g. the markers
occur outside real input elements). -/
def respMarkersOnly : Response :=
  { url := "https://movie.douban.com/people/u/collect", content := "odd",
    hasChaMarker := true, hasTokMarker := true, tokNodes := [], chaNodes := [],
    redNodes := [], actionNodes := [], difficultyMatch := none }

/-- A well-formed checkpoint challenge page. -/
def respChallenge : Response :=
  { url := "https://www.douban.com/about", content := "challenge",
    hasChaMarker := true, hasTokMarker := true, tokNodes := ["T"], chaNodes := ["C"],
    redNodes := ["R"], actionNodes := [], difficultyMatch := some 2 }

/-- A network on which every POST and GET succeeds and every GET returns the
plain content page. -/
def netEx : Network :=
  { postOk := fun _ _ => true, getOk := fun _ => true, getResp := fun _ => respPlain }

/-- C4 as frozen is refuted: this response contains both checkpoint marker
fields, yet the fetch performs zero solver invocations, zero POSTs and zero
GETs (its extraction fields are missing, so the code's fallback returns the
page unmodified), not exactly one of each as the claim requires. -/
theorem checkpoint_flow_cex :
    respMarkersOnly.hasChaMarker = true ∧ respMarkersOnly.hasTokMarker = true ∧
    maybe_handle_pow (fun _ _ => 1) (fun b a => b ++ a) netEx respMarkersOnly "u" =
      (some respMarkersOnly, []) :=
  ⟨rfl, rfl, rfl⟩

/-- C4 (amended): a fetch whose first response contains both checkpoint
markers and all three extraction fields (token, challenge, redirect), and
whose POST and re-issued GET succeed, performs exactly one solver
invocation, one POST and one re-issued GET of the original URL, in that
order, and returns the re-fetched response without re-checking it for a
checkpoint; a fetch whose response lacks the markers performs no solver or
network action and returns that response unchanged. -/
theorem checkpoint_flow (solver : String → Nat → Nat) (urljoin : String → String → String)
    (net : Network) (res : Response) (originalUrl : String) :
    (res.hasChaMarker = true → res.hasTokMarker = true →
      res.tokNodes ≠ [] → res.chaNodes ≠ [] → res.redNodes ≠ [] →
      net.postOk (powChallengeUrl urljoin res) (powPayload solver res) = true →
      net.getOk originalUrl = true →
      maybe_handle_pow solver urljoin net res originalUrl =
        (some (net.getResp originalUrl),
         [NetEvent.solve (res.chaNodes.headD "") (powDifficulty res),
          NetEvent.post (powChallengeUrl urljoin res) (powPayload solver res),
          NetEvent.get originalUrl])) ∧
    (¬ (res.hasChaMarker = true ∧ res.hasTokMarker = true) →
      maybe_handle_pow solver urljoin net res originalUrl = (some res, [])) := by
  constructor
  · intro h1 h2 h3 h4 h5 h6 h7
    rw [maybe_handle_pow]
    rw [if_neg (by simp [h1, h2])]
    rw [if_neg (by simp [h3, h4, h5])]
    rw [if_neg (by simp [h6])]
    rw [if_neg (by simp [h7])]
    simp
  · intro h
    rw [maybe_handle_pow, if_pos (by simpa using h)]

theorem checkpoint_flow_witness :
    maybe_handle_pow (fun _ _ => 1) (fun b a => b ++ a) netEx respChallenge "orig" =
      (some respPlain,
       [NetEvent.solve "C" 2,
        NetEvent.post "https://www.douban.com/about/c"
          [("tok", "T"), ("cha", "C"), ("sol", "1"), ("red", "R")],
        NetEvent.get "orig"]) :=
  (checkpoint_flow (fun _ _ => 1) (fun b a => b ++ a) netEx respChallenge "orig").1
    rfl rfl (by simp [respChallenge]) (by simp [respChallenge]) (by simp [respChallenge])
    rfl rfl

/-- C8: when both checkpoint markers are present in the body but the token,
challenge or redirect extraction field is missing from the parsed DOM, the
interceptor returns the response unmodified as real content, with no solver
invocation, no POST, no retry and no error. -/
theorem checkpoint_fallback (solver : String → Nat → Nat)
    (urljoin : String → String → String) (net : Network) (res : Response)
    (originalUrl : String) (h1 : res.hasChaMarker = true) (h2 : res.hasTokMarker = true)
    (h3 : res.tokNodes = [] ∨ res.chaNodes = [] ∨ res.redNodes = []) :
    maybe_handle_pow solver urljoin net res originalUrl = (some res, []) := by
  rw [maybe_handle_pow, if_neg (by simp [h1, h2]), if_pos h3]

theorem checkpoint_fallback_witness :
    maybe_handle_pow (fun _ _ => 9) (fun b a => b ++ a) netEx respMarkersOnly "orig" =
      (some respMarkersOnly, []) :=
  checkpoint_fallback (fun _ _ => 9) (fun b a => b ++ a) netEx respMarkersOnly "orig"
    rfl rfl (Or.inl rfl)

theorem dictInsert_length (m : List (Int × α)) (k : Int) (v : α) :
    (dictInsert m k v).length ≤ m.length + 1 := by
  rw [dictInsert]
  split
  · simp
  · simp

theorem foldl_dictInsert_length (l : List (Int × α)) :
    ∀ m : List (Int × α),
      (l.foldl (fun acc kv => dictInsert acc kv.1 kv.2) m).length ≤ m.length + l.length := by
  induction l with
  | nil => intro m; simp
  | cons kv t ih =>
    intro m
    calc (List.foldl (fun acc kv => dictInsert acc kv.1 kv.2) (dictInsert m kv.1 kv.2) t).length
        ≤ (dictInsert m kv.1 kv.2).length + t.length := ih _
      _ ≤ (m.length + 1) + t.length := by
          exact Nat.add_le_add_right (dictInsert_length m kv.1 kv.2) t.length
      _ = m.length + (kv :: t).length := by simp [Nat.add_assoc, Nat.add_comm 1]

theorem dictOf_length (l : List (Int × α)) : (dictOf l).length ≤ l.length := by
  simpa using foldl_dictInsert_length l []

/-- C5: when `max_pages` is provided, positive and smaller than the total
page count read from page 1, the fetched pages are exactly pages
`1 .. max_pages`; in particular with `max_pages = 1` only page 1 is
fetched, page 2 is never requested, the result is the dict of page 1's
items, and if page 1 holds at most 15 items the result holds at most 15
records. -/
theorem scrape_clamp_spec (env : ScrapeEnv) (m : Int)
    (h1 : 0 < m) (h2 : m < (env.totalPages : Int)) :
    scrape_pages env (some m) = List.range' 1 m.toNat ∧
    (m = 1 → scrape_pages env (some m) = [1] ∧ 2 ∉ scrape_pages env (some m) ∧
      scrape_results env (some m) = dictOf (env.pageItems 1) ∧
      ((env.pageItems 1).length ≤ 15 → (scrape_results env (some m)).length ≤ 15)) := by
  have hclamp : clampPages env.totalPages (some m) = m := by
    rw [clampPages]
    exact if_pos ⟨h1, h2⟩
  have hpages : scrape_pages env (some m) = List.range' 1 m.toNat := by
    rw [scrape_pages, hclamp]
    obtain ⟨k, hk⟩ : ∃ k, m.toNat = k + 1 := ⟨m.toNat - 1, by omega⟩
    have hk' : (m - 1).toNat = k := by omega
    rw [hk, hk', List.range'_succ]
  refine ⟨hpages, fun hm => ?_⟩
  subst hm
  have hp1 : scrape_pages env (some 1) = [1] := by simpa using hpages
  have hres : scrape_results env (some 1) = dictOf (env.pageItems 1) := by
    rw [scrape_results, hp1]
    rfl
  refine ⟨hp1, by simp [hp1], hres, fun hlen => ?_⟩
  rw [hres]
  exact le_trans (dictOf_length _) hlen

theorem scrape_clamp_spec_witness :
    scrape_pages ⟨fun _ => [], 2⟩ (some 1) = [1] ∧
    2 ∉ scrape_pages ⟨fun _ => [], 2⟩ (some 1) :=
  ⟨((scrape_clamp_spec ⟨fun _ => [], 2⟩ 1 (by decide) (by decide)).2 rfl).1,
   ((scrape_clamp_spec ⟨fun _ => [], 2⟩ 1 (by decide) (by decide)).2 rfl).2.1⟩

theorem listStartsWith_append (pre : List Char) :
    ∀ s, listStartsWith pre s = true → s = pre ++ s.drop pre.length := by
  induction pre with
  | nil => intro s _; simp
  | cons a as ih =>
    intro s h
    cases s with
    | nil => simp [listStartsWith] at h
    | cons b bs =>
      rw [listStartsWith, Bool.and_eq_true] at h
      obtain ⟨h1, h2⟩ := h
      cases eq_of_beq h1
      have := ih bs h2
      simp only [List.length_cons, List.drop_succ_cons, List.cons_append, List.cons.injEq]
      exact ⟨trivial, this⟩

theorem findSep_eq (sep : List Char) :
    ∀ s b a, findSep sep s = some (b, a) → s = b ++ sep ++ a := by
  intro s
  induction s with
  | nil => intro b a h; simp [findSep] at h
  | cons c cs ih =>
    intro b a h
    rw [findSep] at h
    by_cases hp : listStartsWith sep (c :: cs) = true
    · rw [if_pos hp] at h
      cases h
      simpa using listStartsWith_append sep (c :: cs) hp
    · rw [if_neg hp] at h
      cases hfs : findSep sep cs with
      | none => rw [hfs] at h; simp at h
      | some p =>
        rw [hfs] at h
        simp only [Option.map_some', Option.some.injEq, Prod.mk.injEq] at h
        obtain ⟨hb, ha⟩ := h
        have hcs := ih p.1 p.2 (by rw [hfs])
        subst hb; subst ha
        simp [hcs]

/-- C6: the title text "艋舺 / Monga" yields title "Monga" and title_zh
"艋舺"; whenever the post-separator part (stripped) is empty or identical
to the pre-separator part (stripped), the item is single-titled with title
equal to the pre-separator part and title_zh absent, and if that resolved
title is empty parsing fails with the missing-title error carrying the id;
a title text without the separator always falls into this single-titled
case (its post-separator part is empty). -/
theorem title_split_spec :
    parse_page_title ("艋舺 / Monga".toList) 1 =
      Except.ok ("Monga".toList, some ("艋舺".toList)) ∧
    (∀ raw id, titleSnd raw = [] ∨ titleSnd raw = titleFst raw →
      (titleFst raw ≠ [] → parse_page_title raw id = Except.ok (titleFst raw, none)) ∧
      (titleFst raw = [] → parse_page_title raw id = Except.error (titleErrMsg id))) ∧
    (∀ raw, findSep sepChars (normSpace raw) = none → titleSnd raw = []) := by
  refine ⟨by rfl, ?_, ?_⟩
  · intro raw id h
    simp only [titleFst, titleSnd] at h
    constructor
    · intro hne
      simp only [titleFst] at hne
      simp only [parse_page_title]
      rw [if_pos h, if_neg hne]
      rfl
    · intro heq
      simp only [titleFst] at heq
      simp only [parse_page_title]
      rw [if_pos h, if_pos heq]
  · intro raw h
    simp [titleSnd, pyPartition, h, pyStrip]

theorem title_split_spec_witness :
    parse_page_title ("Inception".toList) 5 = Except.ok ("Inception".toList, none) :=
  (title_split_spec.2.1 ("Inception".toList) 5 (Or.inl rfl)).1 (by decide)

theorem pyStrip_eq_nil (s : List Char) (h : pyStrip s = []) : ∀ c ∈ s, pyWs c = true := by
  rw [pyStrip, List.reverse_eq_nil_iff, List.dropWhile_eq_nil_iff] at h
  intro c hc
  have hsplit : s.takeWhile pyWs ++ s.dropWhile pyWs = s :=
    List.takeWhile_append_dropWhile pyWs s
  rw [← hsplit] at hc
  rcases List.mem_append.mp hc with h1 | h1
  · exact List.mem_takeWhile_imp h1
  · exact h c (List.mem_reverse.mpr h1)

theorem wordsAux_words (s : List Char) :
    ∀ cur, (∀ c ∈ cur, isWs c = false) →
      ∀ w ∈ wordsAux s cur, w ≠ [] ∧ ∀ c ∈ w, isWs c = false := by
  induction s with
  | nil =>
    intro cur hcur w hw
    rw [wordsAux] at hw
    split at hw
    · simp at hw
    · next hne =>
      simp only [List.mem_singleton] at hw
      subst hw
      exact ⟨by simpa using hne, fun c hc => hcur c (List.mem_reverse.mp hc)⟩
  | cons c cs ih =>
    intro cur hcur w hw
    rw [wordsAux] at hw
    by_cases hws : isWs c = true
    · rw [if_pos hws] at hw
      by_cases hcur0 : cur = []
      · rw [if_pos hcur0] at hw
        exact ih [] (by simp) w hw
      · rw [if_neg hcur0] at hw
        rcases List.mem_cons.mp hw with hw | hw
        · subst hw
          exact ⟨by simpa using hcur0, fun d hd => hcur d (List.mem_reverse.mp hd)⟩
        · exact ih [] (by simp) w hw
    · rw [if_neg hws] at hw
      refine ih (c :: cur) ?_ w hw
      intro d hd
      rcases List.mem_cons.mp hd with hd | hd
      · subst hd; exact Bool.eq_false_iff.mpr hws
      · exact hcur d hd

theorem normSpace_head (s : List Char) :
    normSpace s = [] ∨ ∃ c t, normSpace s = c :: t ∧ isWs c = false := by
  rw [normSpace]
  cases hw : wordsOf s with
  | nil => left; rfl
  | cons w ws =>
    have hmem : w ∈ wordsAux s [] := by
      rw [wordsOf] at hw; rw [hw]; exact List.mem_cons_self w ws
    obtain ⟨hne, hchars⟩ := wordsAux_words s [] (by simp) w hmem
    cases w with
    | nil => exact absurd rfl hne
    | cons c w' =>
      right
      refine ⟨c, ?_, ?_, hchars c (List.mem_cons_self c w')⟩
      · cases ws with
        | nil => exact w'
        | cons w2 ws2 => exact w' ++ ' ' :: joinWords (w2 :: ws2)
      · cases ws with
        | nil => rfl
        | cons w2 ws2 => rfl

theorem wordsAux_chars (s : List Char) :
    ∀ cur w, w ∈ wordsAux s cur → ∀ c ∈ w, c ∈ cur ∨ c ∈ s := by
  induction s with
  | nil =>
    intro cur w hw c hc
    rw [wordsAux] at hw
    split at hw
    · simp at hw
    · simp only [List.mem_singleton] at hw
      subst hw
      exact Or.inl (List.mem_reverse.mp hc)
  | cons d ds ih =>
    intro cur w hw c hc
    rw [wordsAux] at hw
    by_cases hws : isWs d = true
    · rw [if_pos hws] at hw
      by_cases h0 : cur = []
      · rw [if_pos h0] at hw
        rcases ih [] w hw c hc with h | h
        · simp at h
        · exact Or.inr (List.mem_cons_of_mem d h)
      · rw [if_neg h0] at hw
        rcases List.mem_cons.mp hw with hw | hw
        · subst hw; exact Or.inl (List.mem_reverse.mp hc)
        · rcases ih [] w hw c hc with h | h
          · simp at h
          · exact Or.inr (List.mem_cons_of_mem d h)
    · rw [if_neg hws] at hw
      rcases ih (d :: cur) w hw c hc with h | h
      · rcases List.mem_cons.mp h with h | h
        · subst h; exact Or.inr (List.mem_cons_self c ds)
        · exact Or.inl h
      · exact Or.inr (List.mem_cons_of_mem d h)

theorem joinWords_chars : ∀ ws : List (List Char), ∀ c ∈ joinWords ws,
    c = ' ' ∨ ∃ w ∈ ws, c ∈ w := by
  intro ws
  induction ws with
  | nil => intro c hc; simp [joinWords] at hc
  | cons w ws ih =>
    cases ws with
    | nil =>
      intro c hc
      rw [joinWords] at hc
      exact Or.inr ⟨w, List.mem_cons_self w [], hc⟩
    | cons w2 ws2 =>
      intro c hc
      rw [show joinWords (w :: w2 :: ws2) = w ++ ' ' :: joinWords (w2 :: ws2) from rfl] at hc
      rcases List.mem_append.mp hc with h | h
      · exact Or.inr ⟨w, List.mem_cons_self _ _, h⟩
      · rcases List.mem_cons.mp h with h | h
        · exact Or.inl h
        · rcases ih c h with h | ⟨w', hw', hcw'⟩
          · exact Or.inl h
          · exact Or.inr ⟨w', List.mem_cons_of_mem w hw', hcw'⟩

theorem normSpace_chars (s : List Char) : ∀ c ∈ normSpace s, c = ' ' ∨ c ∈ s := by
  intro c hc
  rcases joinWords_chars (wordsOf s) c hc with h | ⟨w, hw, hcw⟩
  · exact Or.inl h
  · rcases wordsAux_chars s [] w hw c hcw with h | h
    · simp at h
    · exact Or.inr h

/-- C9 as frozen is refuted: the title text `"\x0b / M"` (vertical tab,
space, slash, space, M) parses successfully to a record whose optional
`title_zh` field is present with the empty value. XPath `normalize-space`
keeps the vertical tab (it is not XML whitespace), so the pre-separator
part is `"\x0b"`, which Python `strip()` then reduces to the empty string;
the empty string is not `None`, so the key is not deleted. -/
theorem parse_optional_cex :
    ¬ (∀ raw id t zh, parse_page_title raw id = Except.ok (t, some zh) → zh ≠ []) :=
  fun h => h ['\x0b', ' ', '/', ' ', 'M'] 1 ['M'] [] (by rfl) rfl

/-- C9 (amended): the optional `comment` field is never present with an
empty value; the optional `title_zh` field is never present with an empty
value provided every character of the title text that Python `strip()`
treats as whitespace is also XPath whitespace (the two notions differ only
on exotic characters such as the vertical tab or the no-break space, where
the invariant can fail, as the counterexample shows). -/
theorem parse_optional_nonempty :
    (∀ raw c, parse_page_comment raw = some c → c ≠ []) ∧
    (∀ raw id t zh, (∀ c ∈ raw, pyWs c = true → isWs c = true) →
      parse_page_title raw id = Except.ok (t, some zh) → zh ≠ []) := by
  constructor
  · intro raw c h
    simp only [parse_page_comment] at h
    split at h
    · exact absurd h (by simp)
    · next hne =>
      injection h with h
      subst h
      exact hne
  · intro raw id t zh hws h hzh
    subst hzh
    cases hfs : findSep sepChars (normSpace raw) with
    | none =>
      simp only [parse_page_title, pyPartition, hfs] at h
      have hpos : pyStrip ([] : List Char) = [] ∨
          pyStrip ([] : List Char) = pyStrip (normSpace raw) := Or.inl rfl
      rw [if_pos hpos] at h
      split at h
      · exact Except.noConfusion h
      · injection h with h
        injection h with h1 h2
        exact Option.noConfusion h2
    | some p =>
      obtain ⟨b, a⟩ := p
      simp only [parse_page_title, pyPartition, hfs] at h
      by_cases hcond : pyStrip a = [] ∨ pyStrip a = pyStrip b
      · rw [if_pos hcond] at h
        split at h
        · exact Except.noConfusion h
        · injection h with h
          injection h with h1 h2
          exact Option.noConfusion h2
      · rw [if_neg hcond] at h
        injection h with h
        injection h with h1 h2
        injection h2 with h2
        have hbnil : pyStrip b = [] := h2
        have hall : ∀ c ∈ b, pyWs c = true := pyStrip_eq_nil b hbnil
        have heq : normSpace raw = b ++ sepChars ++ a := findSep_eq sepChars _ b a hfs
        rcases normSpace_head raw with hnil | ⟨c, t', hct, hcws⟩
        · rw [hnil] at heq
          simp [sepChars] at heq
        · cases hb : b with
          | nil =>
            rw [hb] at heq
            rw [hct] at heq
            simp only [List.nil_append, sepChars, List.cons_append,
              List.cons.injEq] at heq
            have : c = ' ' := heq.1
            rw [this] at hcws
            simp [isWs] at hcws
          | cons d ds =>
            rw [hb] at heq
            rw [hct] at heq
            simp only [List.cons_append, List.append_assoc, List.cons.injEq] at heq
            have hcd : c = d := heq.1
            have hdb : d ∈ b := by rw [hb]; exact List.mem_cons_self d ds
            have hdpy : pyWs d = true := hall d hdb
            have hdmem : d ∈ normSpace raw := by
              rw [hct, hcd]
              exact List.mem_cons_self d t'
            rcases normSpace_chars raw d hdmem with hsp | hraw
            · rw [hcd, hsp] at hcws
              simp [isWs] at hcws
            · have : isWs d = true := hws d hraw hdpy
              rw [hcd] at hcws
              rw [this] at hcws
              exact Bool.noConfusion hcws

theorem parse_optional_nonempty_witness :
    ("艋舺".toList : List Char) ≠ [] :=
  parse_optional_nonempty.2 ("艋舺 / Monga".toList) 1 ("Monga".toList) ("艋舺".toList)
    (by decide) rfl

theorem dictInsert_mem {m : List (Int × α)} {k : Int} {v : α} {kv : Int × α}
    (h : kv ∈ dictInsert m k v) : kv ∈ m ∨ kv = (k, v) := by
  rw [dictInsert] at h
  split at h
  · rcases List.mem_map.mp h with ⟨kv', hkv', heq⟩
    split at heq
    · exact Or.inr heq.symm
    · rw [← heq]; exact Or.inl hkv'
  · rcases List.mem_append.mp h with h | h
    · exact Or.inl h
    · exact Or.inr (List.mem_singleton.mp h)

theorem main_old_dict_spec (prev : List Record) :
    ∀ kv ∈ main_old_dict prev, kv.2 ∈ prev ∧ kv.2.id = kv.1 := by
  suffices h : ∀ (l : List Record) (m : List (Int × Record)),
      (∀ kv ∈ m, kv.2 ∈ prev ∧ kv.2.id = kv.1) → (∀ d ∈ l, d ∈ prev) →
      ∀ kv ∈ l.foldl (fun m d => dictInsert m d.id d) m, kv.2 ∈ prev ∧ kv.2.id = kv.1 by
    exact fun kv hkv => h prev [] (by simp) (fun d hd => hd) kv hkv
  intro l
  induction l with
  | nil => intro m hm _ kv hkv; exact hm kv hkv
  | cons d ds ih =>
    intro m hm hl kv hkv
    refine ih (dictInsert m d.id d) ?_ (fun e he => hl e (List.mem_cons_of_mem d he)) kv hkv
    intro kv' hkv'
    rcases dictInsert_mem hkv' with h | h
    · exact hm kv' h
    · subst h; exact ⟨hl d (List.mem_cons_self d ds), rfl⟩

theorem foldl_dictInsert_of_nodup (l : List (Int × α)) :
    ∀ m : List (Int × α), (dictKeys (m ++ l)).Nodup →
      l.foldl (fun acc kv => dictInsert acc kv.1 kv.2) m = m ++ l := by
  induction l with
  | nil => intro m _; simp
  | cons kv t ih =>
    intro m hnd
    have hnotin : kv.1 ∉ dictKeys m := by
      intro hmem
      rw [dictKeys, List.map_append] at hnd
      rcases List.nodup_append.mp hnd with ⟨_, _, hdisj⟩
      exact hdisj hmem (by simp)
    have hany : ¬ (m.any (fun kv' => kv'.1 == kv.1) = true) := by
      rw [List.any_eq_true]
      rintro ⟨kv', hkv', hbeq⟩
      exact hnotin (by
        rw [dictKeys]
        exact List.mem_map.mpr ⟨kv', hkv', by simpa using hbeq⟩)
    rw [List.foldl_cons]
    have hstep : dictInsert m kv.1 kv.2 = m ++ [kv] := by
      rw [dictInsert, if_neg hany]
    rw [hstep]
    have hnd' : (dictKeys ((m ++ [kv]) ++ t)).Nodup := by
      rw [List.append_assoc]
      simpa using hnd
    rw [ih (m ++ [kv]) hnd']
    simp

theorem main_old_dict_of_nodup (prev : List Record) (hp : (prev.map Record.id).Nodup) :
    main_old_dict prev = prev.map (fun d => (d.id, d)) := by
  rw [main_old_dict]
  have hfold :
      prev.foldl (fun m d => dictInsert m d.id d) [] =
        (prev.map (fun d => (d.id, d))).foldl (fun acc kv => dictInsert acc kv.1 kv.2) [] := by
    rw [List.foldl_map]
  rw [hfold]
  have hkeys : (dictKeys (([] : List (Int × Record)) ++ prev.map (fun d => (d.id, d)))).Nodup := by
    simpa [dictKeys, List.map_map, Function.comp] using hp
  simpa using foldl_dictInsert_of_nodup (prev.map (fun d => (d.id, d))) [] hkeys

theorem keys_nodup_unique :
    ∀ (l : List (Int × α)), (dictKeys l).Nodup →
      ∀ {k : Int} {v w : α}, (k, v) ∈ l → (k, w) ∈ l → v = w := by
  intro l
  induction l with
  | nil => intro _ k v w hv _; simp at hv
  | cons kv t ih =>
    intro hnd k v w hv hw
    rw [dictKeys, List.map_cons, List.nodup_cons] at hnd
    obtain ⟨hk, hnd'⟩ := hnd
    rcases List.mem_cons.mp hv with hv | hv <;> rcases List.mem_cons.mp hw with hw | hw
    · rw [← hv] at hw
      exact (Prod.mk.injEq _ _ _ _ ▸ hw).2.symm
    · exfalso
      apply hk
      rw [← hv]
      exact List.mem_map.mpr ⟨(k, w), hw, rfl⟩
    · exfalso
      apply hk
      rw [← hw]
      exact List.mem_map.mpr ⟨(k, v), hv, rfl⟩
    · exact ih hnd' hv hw

theorem mem_main_merge {data : List (Int × Record)} {prev : List Record} {r : Record} :
    r ∈ main_merge data prev ↔ r ∈ data.map Prod.snd ∨ r ∈ main_old_only data prev := by
  simp only [main_merge]
  split
  · next h =>
    rw [List.isEmpty_iff.mp h]
    simp
  · rw [List.mem_insertionSort]
    exact List.mem_append

/-- A fresh-scrape record rated 2020-01-01. -/
def recA : Record :=
  { id := 1, title := "A", year := 2000, rating := 3, rated_at := "2020-01-01" }

/-- A fresh-scrape record rated 2021-01-01. -/
def recB : Record :=
  { id := 2, title := "B", year := 2001, rating := 4, rated_at := "2021-01-01" }

/-- C1 as frozen is refuted: with fresh = {1: recA, 2: recB} and previous
holding exactly the same two records (identical record sets), every
previous id is re-observed, so `main` skips the sort (`if old:` is false)
and returns the fresh values in their original mapping order
[recA, recB], which is not sorted by `rated_at` descending
("2020-01-01" before "2021-01-01"). -/
theorem main_merge_sorted_cex :
    main_merge [(1, recA), (2, recB)] [recA, recB] = [recA, recB] ∧
    ¬ List.Sorted ratedGE (main_merge [(1, recA), (2, recB)] [recA, recB]) := by
  constructor
  · rfl
  · intro hs
    rw [show main_merge [(1, recA), (2, recB)] [recA, recB] = [recA, recB] from rfl] at hs
    rcases List.sorted_cons.mp hs with ⟨hrel, _⟩
    have hle : ratedGE recA recB := hrel recB (List.mem_singleton.mpr rfl)
    rw [ratedGE, show recB.rated_at = "2021-01-01" from rfl,
      show recA.rated_at = "2020-01-01" from rfl, String.le_iff_toList_le] at hle
    revert hle
    decide

/-- C1 (amended): the merged output is sorted by `rated_at` descending
(string-lexicographic) whenever at least one previous record's id is absent
from the fresh result set; when every previous id is present in the fresh
set — in particular when fresh and previous contain identical record sets —
the sort is skipped and the output is exactly the fresh mapping's values in
their original order. -/
theorem main_merge_sorted (data : List (Int × Record)) (prev : List Record) :
    (main_old_only data prev ≠ [] → List.Sorted ratedGE (main_merge data prev)) ∧
    (main_old_only data prev = [] → main_merge data prev = data.map Prod.snd) ∧
    ((∀ d ∈ prev, d.id ∈ dictKeys data) → main_merge data prev = data.map Prod.snd) := by
  have hskip : main_old_only data prev = [] → main_merge data prev = data.map Prod.snd := by
    intro hnil
    simp only [main_merge]
    rw [if_pos (by simp [hnil])]
  refine ⟨?_, hskip, ?_⟩
  · intro hne
    simp only [main_merge]
    rw [if_neg (by simpa [List.isEmpty_iff] using hne)]
    exact List.sorted_insertionSort ratedGE _
  · intro hall
    apply hskip
    rw [main_old_only, List.map_eq_nil_iff, List.filter_eq_nil_iff]
    intro kv hkv
    obtain ⟨hmem, hid⟩ := main_old_dict_spec prev kv hkv
    simp only [decide_eq_true_eq, Decidable.not_not]
    rw [← hid]
    exact hall kv.2 hmem

theorem main_merge_sorted_witness :
    List.Sorted ratedGE (main_merge [(2, recB)] [recA]) :=
  (main_merge_sorted [(2, recB)] [recA]).1 (by decide)

theorem mem_main_old_only {data : List (Int × Record)} {prev : List Record}
    (hp : (prev.map Record.id).Nodup) {r : Record} :
    r ∈ main_old_only data prev ↔ r ∈ prev ∧ r.id ∉ dictKeys data := by
  rw [main_old_only, main_old_dict_of_nodup prev hp]
  constructor
  · intro h
    rcases List.mem_map.mp h with ⟨kv, hkv, hsnd⟩
    rcases List.mem_filter.mp hkv with ⟨hkv', hpkv⟩
    rcases List.mem_map.mp hkv' with ⟨d, hd, hdkv⟩
    subst hdkv
    subst hsnd
    simp only [decide_eq_true_eq] at hpkv
    exact ⟨hd, hpkv⟩
  · rintro ⟨hmem, hnotin⟩
    refine List.mem_map.mpr ⟨(r.id, r), ?_, rfl⟩
    refine List.mem_filter.mpr ⟨List.mem_map.mpr ⟨r, hmem, rfl⟩, ?_⟩
    simpa using hnotin

/-- C2: the merged output contains exactly the ids of fresh union previous;
every previous record whose id is absent from the fresh result set appears
in the output unchanged; and for every id in the fresh result set the
output contains the fresh record and nothing else under that id (hence, for
ids present in both, the fresh record and not the previous one). Hypotheses:
fresh keys are unique and each fresh record is keyed by its own id (true of
the scrape dict by construction), and previous ids are unique (the persisted
set invariant). -/
theorem main_merge_contents (data : List (Int × Record)) (prev : List Record)
    (hd : (dictKeys data).Nodup) (hc : ∀ kv ∈ data, kv.2.id = kv.1)
    (hp : (prev.map Record.id).Nodup) :
    (∀ i : Int, (∃ r ∈ main_merge data prev, r.id = i) ↔
      (i ∈ dictKeys data ∨ ∃ d ∈ prev, d.id = i)) ∧
    (∀ d ∈ prev, d.id ∉ dictKeys data → d ∈ main_merge data prev) ∧
    (∀ i v, (i, v) ∈ data → v ∈ main_merge data prev ∧
      ∀ r ∈ main_merge data prev, r.id = i → r = v) := by
  have hvals : ∀ {r : Record}, r ∈ data.map Prod.snd → r ∈ main_merge data prev :=
    fun h => mem_main_merge.mpr (Or.inl h)
  have holds : ∀ {r : Record}, r ∈ main_old_only data prev → r ∈ main_merge data prev :=
    fun h => mem_main_merge.mpr (Or.inr h)
  refine ⟨?_, ?_, ?_⟩
  · intro i
    constructor
    · rintro ⟨r, hr, hid⟩
      rcases mem_main_merge.mp hr with h | h
      · rcases List.mem_map.mp h with ⟨kv, hkv, hsnd⟩
        left
        rw [← hid, ← hsnd, hc kv hkv]
        exact List.mem_map.mpr ⟨kv, hkv, rfl⟩
      · right
        exact ⟨r, ((mem_main_old_only hp).mp h).1, hid⟩
    · rintro (h | ⟨d, hd', hdi⟩)
      · rcases List.mem_map.mp h with ⟨kv, hkv, hfst⟩
        exact ⟨kv.2, hvals (List.mem_map.mpr ⟨kv, hkv, rfl⟩), by rw [hc kv hkv, hfst]⟩
      · by_cases hin : i ∈ dictKeys data
        · rcases List.mem_map.mp hin with ⟨kv, hkv, hfst⟩
          exact ⟨kv.2, hvals (List.mem_map.mpr ⟨kv, hkv, rfl⟩), by rw [hc kv hkv, hfst]⟩
        · refine ⟨d, holds ((mem_main_old_only hp).mpr ⟨hd', ?_⟩), hdi⟩
          rw [hdi]
          exact hin
  · intro d hd' hnotin
    exact holds ((mem_main_old_only hp).mpr ⟨hd', hnotin⟩)
  · intro i v hiv
    have hvid : v.id = i := hc (i, v) hiv
    refine ⟨hvals (List.mem_map.mpr ⟨(i, v), hiv, rfl⟩), ?_⟩
    intro r hr hrid
    rcases mem_main_merge.mp hr with h | h
    · rcases List.mem_map.mp h with ⟨kv, hkv, hsnd⟩
      have hkvfst : kv.1 = i := by rw [← hc kv hkv, hsnd, hrid]
      have : (i, r) ∈ data := by
        have : kv = (i, r) := by
          rw [← hkvfst, ← hsnd]
        rw [← this]
        exact hkv
      exact keys_nodup_unique data hd this hiv
    · exfalso
      have := ((mem_main_old_only hp).mp h).2
      apply this
      rw [hrid]
      exact List.mem_map.mpr ⟨(i, v), hiv, rfl⟩

theorem main_merge_contents_witness :
    recB ∈ main_merge [(1, recA)] [recB] :=
  (main_merge_contents [(1, recA)] [recB] (by decide) (by decide) (by decide)).2.1
    recB (by decide) (by decide)
